import Mathlib

/-
Verification of the defkit field-mapping and template-composition engine as
used by the vela-definitions component helpers (SharedHelpers).

The engine itself (Value tree, FieldRule evaluation, bucket extraction,
pipeline builder, collection operator) is modelled from the specification;
the concrete helper pipelines and transforms (ContainerMountsHelper,
PodVolumesHelper, podVolumeMappings, ContainerPortsTransform,
ServicePortsTransform, ...) are translated from the repository source.
-/

namespace Defkit

/-- Modelled from the spec: the configuration Value tree (missing engine code,
package defkit). A read-only tree of maps, sequences and scalars; absence is
represented by `Option Value` at use sites, never by a null scalar. -/
inductive Value where
  | str (s : String)
  | num (n : Int)
  | boolean (b : Bool)
  | arr (items : List Value)
  | obj (fields : List (String × Value))

/-- An output object: a mapping from field name to value, in emission order. -/
abbrev Obj := List (String × Value)

/-- Modelled from the spec: a Record (missing engine code) — a mapping from
field name to Value carrying the `sourceBucket` tag assigned at extraction. -/
structure Record where
  fields : Obj
  sourceBucket : String

/-- First-match lookup of a field name in an object. -/
def lookupField (fs : Obj) (k : String) : Option Value :=
  match fs with
  | [] => none
  | (k', v) :: rest => if k' = k then some v else lookupField rest k

/-- Modelled from the spec: `IsSet` (missing engine code) — true iff the value
is present and non-empty (empty sequences and empty maps count as unset). -/
def isSetV : Option Value → Bool
  | none => false
  | some (.arr []) => false
  | some (.obj []) => false
  | some _ => true

/-- Field access on a value: resolves a field name on a map node. -/
def Value.getField : Value → String → Option Value
  | .obj fs, k => lookupField fs k
  | _, _ => none

/-- Modelled from the spec: a FieldRule (missing engine code) — the algebraic
rule language `Ref / Or / Format / Nested / Optional` of the FieldMap. -/
inductive FieldRule where
  | ref (path : String)
  | orElse (a b : FieldRule)
  | format (template : String) (args : List FieldRule)
  | nested (fm : List (String × FieldRule))
  | optional (path : String)

/-- A FieldMap: output field name to FieldRule, in declaration order. -/
abbrev FieldMap := List (String × FieldRule)

/-- Render a scalar value for string interpolation. -/
def renderValue : Value → String
  | .str s => s
  | .num n => toString n
  | .boolean b => if b then "true" else "false"
  | .arr _ => ""
  | .obj _ => ""

/-- Walk the template characters, substituting one argument per placeholder
and copying every other character into the accumulator. -/
def interpGo : List Char → List String → String → String
  | [], _, acc => acc
  | '%' :: 'v' :: rest, a :: as, acc => interpGo rest as (acc ++ a)
  | c :: rest, as, acc => interpGo rest as (acc.push c)

/-- Modelled from the spec: Format interpolation (missing engine code) —
substitute each placeholder of the template by one rendered argument. -/
def interpolate (template : String) (args : List String) : String :=
  interpGo template.toList args ""

mutual

/-- Modelled from the spec: FieldRule resolution (missing engine code) — a
total function to `Option Value`; a missing referenced path yields absence
(`none`), never an error, and absence propagates through `orElse`. -/
def evalRule (r : Record) : FieldRule → Option Value
  | .ref p => lookupField r.fields p
  | .orElse a b =>
    match evalRule r a with
    | some v => some v
    | none => evalRule r b
  | .format t args =>
    match evalArgs r args with
    | some rendered => some (.str (interpolate t rendered))
    | none => none
  | .nested fm => some (.obj (evalMap r fm))
  | .optional p => lookupField r.fields p

/-- Resolve all arguments of a Format rule; absent if any argument is absent. -/
def evalArgs (r : Record) : List FieldRule → Option (List String)
  | [] => some []
  | a :: as =>
    match evalRule r a with
    | some v =>
      match evalArgs r as with
      | some rest => some (renderValue v :: rest)
      | none => none
    | none => none

/-- Modelled from the spec: FieldMap application (missing engine code) — each
output field whose rule resolves is emitted; a field whose rule resolves to
absent is omitted entirely (no null placeholder). -/
def evalMap (r : Record) : FieldMap → Obj
  | [] => []
  | (f, rule) :: rest =>
    match evalRule r rule with
    | some v => (f, v) :: evalMap r rest
    | none => evalMap r rest

end

mutual

/-- Structural boolean equality on values. -/
def beqValue : Value → Value → Bool
  | .str a, .str b => a == b
  | .num a, .num b => a == b
  | .boolean a, .boolean b => a == b
  | .arr a, .arr b => beqValueList a b
  | .obj a, .obj b => beqValueFields a b
  | _, _ => false

/-- Structural boolean equality on value lists. -/
def beqValueList : List Value → List Value → Bool
  | [], [] => true
  | a :: as, b :: bs => beqValue a b && beqValueList as bs
  | _, _ => false

/-- Structural boolean equality on objects. -/
def beqValueFields : Obj → Obj → Bool
  | [], [] => true
  | (k, v) :: as, (k', v') :: bs => k == k' && beqValue v v' && beqValueFields as bs
  | _, _ => false

end

mutual

theorem beqValue_refl : ∀ a, beqValue a a = true
  | .str _ => by simp [beqValue]
  | .num _ => by simp [beqValue]
  | .boolean _ => by simp [beqValue]
  | .arr items => by simp [beqValue, beqValueList_refl items]
  | .obj fs => by simp [beqValue, beqValueFields_refl fs]

theorem beqValueList_refl : ∀ l, beqValueList l l = true
  | [] => by simp [beqValueList]
  | a :: as => by simp [beqValueList, beqValue_refl a, beqValueList_refl as]

theorem beqValueFields_refl : ∀ l, beqValueFields l l = true
  | [] => by simp [beqValueFields]
  | (_, v) :: rest => by simp [beqValueFields, beqValue_refl v, beqValueFields_refl rest]

end

mutual

theorem beqValue_sound : ∀ a b, beqValue a b = true → a = b
  | .str _, .str _ => by simp [beqValue]
  | .str _, .num _ => by simp [beqValue]
  | .str _, .boolean _ => by simp [beqValue]
  | .str _, .arr _ => by simp [beqValue]
  | .str _, .obj _ => by simp [beqValue]
  | .num _, .str _ => by simp [beqValue]
  | .num _, .num _ => by simp [beqValue]
  | .num _, .boolean _ => by simp [beqValue]
  | .num _, .arr _ => by simp [beqValue]
  | .num _, .obj _ => by simp [beqValue]
  | .boolean _, .str _ => by simp [beqValue]
  | .boolean _, .num _ => by simp [beqValue]
  | .boolean _, .boolean _ => by simp [beqValue]
  | .boolean _, .arr _ => by simp [beqValue]
  | .boolean _, .obj _ => by simp [beqValue]
  | .arr _, .str _ => by simp [beqValue]
  | .arr _, .num _ => by simp [beqValue]
  | .arr _, .boolean _ => by simp [beqValue]
  | .arr a, .arr b => by
    simp only [beqValue, Value.arr.injEq]
    exact beqValueList_sound a b
  | .arr _, .obj _ => by simp [beqValue]
  | .obj _, .str _ => by simp [beqValue]
  | .obj _, .num _ => by simp [beqValue]
  | .obj _, .boolean _ => by simp [beqValue]
  | .obj _, .arr _ => by simp [beqValue]
  | .obj a, .obj b => by
    simp only [beqValue, Value.obj.injEq]
    exact beqValueFields_sound a b

theorem beqValueList_sound : ∀ a b, beqValueList a b = true → a = b
  | [], [] => by simp
  | [], _ :: _ => by simp [beqValueList]
  | _ :: _, [] => by simp [beqValueList]
  | a :: as, b :: bs => by
    simp only [beqValueList, Bool.and_eq_true, List.cons.injEq]
    intro ⟨h1, h2⟩
    exact ⟨beqValue_sound a b h1, beqValueList_sound as bs h2⟩

theorem beqValueFields_sound : ∀ a b, beqValueFields a b = true → a = b
  | [], [] => by simp
  | [], _ :: _ => by simp [beqValueFields]
  | _ :: _, [] => by simp [beqValueFields]
  | (k, v) :: as, (k', v') :: bs => by
    simp only [beqValueFields, Bool.and_eq_true, List.cons.injEq, Prod.mk.injEq, beq_iff_eq]
    intro ⟨⟨h0, h1⟩, h2⟩
    exact ⟨⟨h0, beqValue_sound v v' h1⟩, beqValueFields_sound as bs h2⟩

end

/-- Boolean equality agrees with propositional equality on values. -/
theorem beqValue_iff (a b : Value) : beqValue a b = true ↔ a = b :=
  ⟨beqValue_sound a b, fun h => h ▸ beqValue_refl a⟩

/-- Membership of a value in a list of values, by structural equality. -/
def containsValue (l : List Value) (v : Value) : Bool :=
  l.any (fun w => beqValue w v)

/-- Turn one bucket item into a record tagged with the bucket name; only map
items contribute fields, any other item yields a record with no fields. -/
def recordOf (bucket : String) : Value → Record
  | .obj fs => ⟨fs, bucket⟩
  | _ => ⟨[], bucket⟩

/-- Modelled from the spec: the source bucket extractor FromFields (missing
engine code) — for each bucket name in the caller-supplied order, if the
bucket is set its items are iterated in declared order, each becoming one
record tagged with the bucket name; unset buckets contribute zero records. -/
def fromFields (root : Value) (buckets : List String) : List Record :=
  buckets.flatMap fun b =>
    if isSetV (root.getField b) then
      match root.getField b with
      | some (.arr items) => items.map (recordOf b)
      | _ => []
    else []

/-- Modelled from the spec: the record-level condition language of PickIf
(missing engine code); `ItemFieldIsSet` tests presence of a record field. -/
inductive Condition where
  | itemFieldIsSet (path : String)

/-- Evaluate a condition against the current record. -/
def evalCond (r : Record) : Condition → Bool
  | .itemFieldIsSet p => isSetV (lookupField r.fields p)

/-- One step of the uniform mapping mode: an unconditional Pick of a field or
a conditional PickIf. -/
inductive PickItem where
  | pick (field : String)
  | pickIf (cond : Condition) (field : String)

/-- Modelled from the spec: uniform Pick/PickIf application (missing engine
code) — copy each picked field from the record when present; a PickIf field
is emitted only when its condition holds of the current record, and an
omitted field is entirely absent rather than a null placeholder. -/
def applyPicks (items : List PickItem) (r : Record) : Obj :=
  items.filterMap fun it =>
    match it with
    | .pick f => (lookupField r.fields f).map fun v => (f, v)
    | .pickIf c f =>
      if evalCond r c then (lookupField r.fields f).map fun v => (f, v)
      else none

/-- The per-record mapping stage of a helper pipeline. -/
inductive MapStage where
  | noMap
  | pickStage (items : List PickItem)
  | mapBySource (table : List (String × FieldMap))

/-- Look up the field map for a bucket name in a MapBySource table. -/
def lookupFieldMap (table : List (String × FieldMap)) (b : String) : Option FieldMap :=
  match table with
  | [] => none
  | (b', fm) :: rest => if b' = b then some fm else lookupFieldMap rest b

/-- Modelled from the spec: per-bucket dispatch of MapBySource (missing
engine code) — the field map applied to a record is selected by the record's
sourceBucket tag; a bucket with no entry yields no fields (such pipelines
are rejected at build time, see `buildOk`). -/
def dispatchRecord (table : List (String × FieldMap)) (r : Record) : Obj :=
  match lookupFieldMap table r.sourceBucket with
  | some fm => evalMap r fm
  | none => []

/-- Apply the mapping stage of a pipeline to the extracted records. -/
def applyStage (stage : MapStage) (records : List Record) : List Obj :=
  match stage with
  | .noMap => records.map Record.fields
  | .pickStage items => records.map (applyPicks items)
  | .mapBySource table => records.map (dispatchRecord table)

/-- Modelled from the spec: stable first-wins deduplication by a key field
(missing engine code) — the first object carrying a given key value is kept,
later objects with the same key value are dropped; objects without the key
are kept. -/
def dedupeGo (key : String) (seen : List Value) : List Obj → List Obj
  | [] => []
  | o :: rest =>
    match lookupField o key with
    | some v =>
      if containsValue seen v then dedupeGo key seen rest
      else o :: dedupeGo key (v :: seen) rest
    | none => o :: dedupeGo key seen rest

/-- Dedupe of a list of output objects by a key field, first occurrence wins. -/
def dedupeBy (key : String) (l : List Obj) : List Obj :=
  dedupeGo key [] l

/-- Apply an optional trailing Dedupe stage. -/
def applyDedupe : Option String → List Obj → List Obj
  | none, l => l
  | some k, l => dedupeBy k l

/-- An object carries the value `v` at the key field. -/
def keyMatches (key : String) (v : Value) (o : Obj) : Bool :=
  match lookupField o key with
  | some w => beqValue w v
  | none => false

/-- Modelled from the spec: a built helper pipeline (missing engine code) —
an immutable description of source (FromFields over bucket names, or
FromHelper chaining an upstream pipeline), a mapping stage, and an optional
Dedupe key. -/
inductive Pipeline where
  | fromFieldsSrc (buckets : List String) (stage : MapStage) (dedupeKey : Option String)
  | fromHelperSrc (up : Pipeline) (stage : MapStage) (dedupeKey : Option String)

/-- Modelled from the spec: render-time evaluation of a built pipeline
(missing engine code) — a pure function from the configuration snapshot to
the ordered output sequence. -/
def evalPipeline (root : Value) : Pipeline → List Obj
  | .fromFieldsSrc buckets stage dk =>
    applyDedupe dk (applyStage stage (fromFields root buckets))
  | .fromHelperSrc up stage dk =>
    applyDedupe dk (applyStage stage ((evalPipeline root up).map fun fs => ⟨fs, ""⟩))

/-- Modelled from the spec: the build-time completeness check (missing engine
code) — a MapBySource stage must carry an entry for every bucket name its
FromFields source can produce; a missing entry is a definition-time
configuration error, detected when the helper is built. -/
def buildOk : Pipeline → Bool
  | .fromFieldsSrc buckets stage _ =>
    match stage with
    | .mapBySource table => buckets.all fun b => (lookupFieldMap table b).isSome
    | _ => true
  | .fromHelperSrc up stage _ =>
    (match stage with
     | .mapBySource table =>
       match up with
       | .fromFieldsSrc buckets _ _ => buckets.all fun b => (lookupFieldMap table b).isSome
       | _ => true
     | _ => true) && buildOk up

/-- Modelled from the spec: the collection operator (missing engine code) —
a per-item transformation over one already-resolved sequence: Map reshapes
every item through one field map, Wrap embeds each item as a one-field
object. -/
inductive CollectionOp where
  | mapOp (fm : FieldMap)
  | wrapOp (field : String)

/-- Modelled from the spec: evaluation of `Each(seq).Map/.Wrap` (missing
engine code) — apply the operation to every item of the sequence in order. -/
def evalEach (op : CollectionOp) : Value → List Obj
  | .arr items =>
    (match op with
     | .mapOp fm => items.map fun it => evalMap (recordOf "" it) fm
     | .wrapOp f => items.map fun it => [(f, it)])
  | _ => []

/-- The standard volume mount source fields (SharedHelpers source). -/
def volumeMountSources : List String := ["pvc", "configMap", "secret", "emptyDir", "hostPath"]

/-- The pick items of the container-mounts helpers: Pick name and mountPath,
PickIf subPath is set. -/
def containerMountsPicks : List PickItem :=
  [.pick "name", .pick "mountPath",
   .pickIf (.itemFieldIsSet "subPath") "subPath"]

/-- The uniform mapping stage of the container-mounts helpers. -/
def containerMountsStage : MapStage := .pickStage containerMountsPicks

/-- ContainerMountsHelper (SharedHelpers source): FromFields over the volume
mount sources, Pick name and mountPath, PickIf subPath. -/
def ContainerMountsHelper : Pipeline :=
  .fromFieldsSrc volumeMountSources containerMountsStage none

/-- ContainerMountsDedupedHelper (SharedHelpers source): a first helper with
the same extraction and picking stages as ContainerMountsHelper, chained
into a second helper that only dedupes by name. -/
def ContainerMountsDedupedHelper : Pipeline :=
  .fromHelperSrc
    (.fromFieldsSrc volumeMountSources containerMountsStage none)
    .noMap (some "name")

/-- podVolumeMappings (SharedHelpers source): the standard per-bucket field
mappings for pod volumes. -/
def podVolumeMappings : List (String × FieldMap) :=
  [("pvc",
    [("name", .ref "name"),
     ("persistentVolumeClaim", .nested [("claimName", .ref "claimName")])]),
   ("configMap",
    [("name", .ref "name"),
     ("configMap",
      .nested
        [("name", .ref "cmName"),
         ("defaultMode", .ref "defaultMode"),
         ("items", .optional "items")])]),
   ("secret",
    [("name", .ref "name"),
     ("secret",
      .nested
        [("secretName", .ref "secretName"),
         ("defaultMode", .ref "defaultMode"),
         ("items", .optional "items")])]),
   ("emptyDir",
    [("name", .ref "name"),
     ("emptyDir", .nested [("medium", .ref "medium")])]),
   ("hostPath",
    [("name", .ref "name"),
     ("hostPath", .nested [("path", .ref "path")])])]

/-- PodVolumesHelper (SharedHelpers source): FromFields over the volume
mount sources, MapBySource with the pod volume mappings. -/
def PodVolumesHelper : Pipeline :=
  .fromFieldsSrc volumeMountSources (.mapBySource podVolumeMappings) none

/-- PodVolumesDedupedHelper (SharedHelpers source): a first helper with the
same extraction and mapping stages as PodVolumesHelper, chained into a
second helper that only dedupes by name. -/
def PodVolumesDedupedHelper : Pipeline :=
  .fromHelperSrc
    (.fromFieldsSrc volumeMountSources (.mapBySource podVolumeMappings) none)
    .noMap (some "name")

/-- ImagePullSecretsTransform (SharedHelpers source): wrap each secret name
as an object with one name field. -/
def ImagePullSecretsTransform : CollectionOp := .wrapOp "name"

/-- The fallback chain Ref(port).Or(Ref(containerPort)) used by
ServicePortsTransform. -/
def portFallbackRule : FieldRule := .orElse (.ref "port") (.ref "containerPort")

/-- The field map of ContainerPortsTransform (SharedHelpers source):
containerPort is a bare Ref(port), name defaults to the formatted port when
absent, protocol is copied. -/
def containerPortsMap : FieldMap :=
  [("containerPort", .ref "port"),
   ("name", .orElse (.ref "name") (.format "port-%v" [.ref "port"])),
   ("protocol", .ref "protocol")]

/-- ContainerPortsTransform (SharedHelpers source): map each port record to
container port format. -/
def ContainerPortsTransform : CollectionOp := .mapOp containerPortsMap

/-- The field map of ServicePortsTransform (SharedHelpers source): port and
targetPort fall back from port to containerPort, name defaults to the
formatted fallback when absent, protocol is copied. -/
def servicePortsMap : FieldMap :=
  [("port", portFallbackRule),
   ("targetPort", portFallbackRule),
   ("name", .orElse (.ref "name") (.format "port-%v" [portFallbackRule])),
   ("protocol", .ref "protocol")]

/-- ServicePortsTransform (SharedHelpers source): map each port record to
Service port format. -/
def ServicePortsTransform : CollectionOp := .mapOp servicePortsMap

/-- Sample objects and configuration used as concrete test inputs. -/
def itemA : Obj := [("name", .str "a")]

/-- Sample object b. -/
def itemB : Obj := [("name", .str "b")]

/-- Sample object c. -/
def itemC : Obj := [("name", .str "c")]

/-- A configuration tree with bucket B1 holding items a and b, and bucket B2
holding item c. -/
def cfgTwoBuckets : Value :=
  .obj [("B1", .arr [.obj itemA, .obj itemB]), ("B2", .arr [.obj itemC])]

/-- Sample tagged object: name x, v 1. -/
def objX1 : Obj := [("name", .str "x"), ("v", .num 1)]

/-- Sample tagged object: name y, v 2. -/
def objY2 : Obj := [("name", .str "y"), ("v", .num 2)]

/-- Sample tagged object: name x, v 3. -/
def objX3 : Obj := [("name", .str "x"), ("v", .num 3)]

/-- Membership by structural equality agrees with list membership. -/
theorem containsValue_iff (l : List Value) (v : Value) :
    containsValue l v = true ↔ v ∈ l := by
  simp [containsValue, List.any_eq_true, beqValue_iff]

/-- Dedupe emits a sublist of its input: it preserves relative order and
invents nothing (a stable filter, not a sort). -/
theorem dedupeGo_sublist (key : String) (seen : List Value) (l : List Obj) :
    (dedupeGo key seen l).Sublist l := by
  induction l generalizing seen with
  | nil => simp [dedupeGo]
  | cons o rest ih =>
    rw [dedupeGo]
    split
    · split
      · exact List.Sublist.cons o (ih seen)
      · exact List.Sublist.cons₂ o (ih _)
    · exact List.Sublist.cons₂ o (ih seen)

/-- Once a key value has been seen, dedupe drops every later object carrying
that key value. -/
theorem dedupeGo_filter_of_mem (key : String) (v : Value) (l : List Obj) :
    ∀ seen : List Value, v ∈ seen →
      (dedupeGo key seen l).filter (keyMatches key v) = [] := by
  induction l with
  | nil => intro seen _; simp [dedupeGo]
  | cons o rest ih =>
    intro seen hv
    rw [dedupeGo]
    split
    next w h =>
      by_cases hc : containsValue seen w = true
      · rw [if_pos hc]
        exact ih seen hv
      · rw [if_neg hc]
        have hwv : keyMatches key v o = false := by
          simp only [keyMatches, h]
          cases hb : beqValue w v
          · rfl
          · exact absurd ((containsValue_iff seen w).mpr (beqValue_sound w v hb ▸ hv)) hc
        simp only [List.filter_cons, hwv, if_neg, Bool.false_eq_true, ite_false]
        exact ih (w :: seen) (List.mem_cons_of_mem w hv)
    next h =>
      have hno : keyMatches key v o = false := by
        simp only [keyMatches, h]
      simp only [List.filter_cons, hno, Bool.false_eq_true, ite_false]
      exact ih seen hv

/-- On a fresh key value, dedupe keeps exactly the first object carrying it:
the filtered output is the first element of the filtered input. -/
theorem dedupeGo_filter_of_not_mem (key : String) (v : Value) (l : List Obj) :
    ∀ seen : List Value, v ∉ seen →
      (dedupeGo key seen l).filter (keyMatches key v) =
        (l.filter (keyMatches key v)).take 1 := by
  induction l with
  | nil => intro seen _; simp [dedupeGo]
  | cons o rest ih =>
    intro seen hv
    rw [dedupeGo]
    split
    next w h =>
      by_cases hc : containsValue seen w = true
      · have hwseen : w ∈ seen := (containsValue_iff seen w).mp hc
        have hwv : keyMatches key v o = false := by
          simp only [keyMatches, h]
          cases hb : beqValue w v
          · rfl
          · exact absurd (beqValue_sound w v hb ▸ hwseen) hv
        rw [if_pos hc]
        simp only [List.filter_cons, hwv, Bool.false_eq_true, ite_false]
        exact ih seen hv
      · rw [if_neg hc]
        by_cases hwveq : w = v
        · subst hwveq
          have hko : keyMatches key w o = true := by
            simp only [keyMatches, h]
            exact beqValue_refl w
          simp only [List.filter_cons, hko, ite_true, List.take]
          rw [dedupeGo_filter_of_mem key w rest (w :: seen) (List.mem_cons_self w seen)]
        · have hko : keyMatches key v o = false := by
            simp only [keyMatches, h]
            cases hb : beqValue w v
            · rfl
            · exact absurd (beqValue_sound w v hb) hwveq
          have hvnot : v ∉ w :: seen := by
            intro hmem
            rcases List.mem_cons.mp hmem with h1 | h2
            · exact hwveq h1.symm
            · exact hv h2
          simp only [List.filter_cons, hko, Bool.false_eq_true, ite_false]
          exact ih (w :: seen) hvnot
    next h =>
      have hno : keyMatches key v o = false := by
        simp only [keyMatches, h]
      simp only [List.filter_cons, hno, Bool.false_eq_true, ite_false]
      exact ih seen hv

/-- C1: for every configuration tree and caller-supplied bucket list,
FromFields yields the extracted records in bucket order first and then
within-bucket insertion order, with no sorting and no deduplication; in
particular for buckets B1 with items a, b and B2 with item c the result is
exactly the records of a, b, c in that order. -/
theorem fromFields_bucket_then_item_order :
    (∀ (root : Value) (b : String) (items : List Value),
        root.getField b = some (.arr items) →
        fromFields root [b] = items.map (recordOf b)) ∧
    (∀ (root : Value) (bs1 bs2 : List String),
        fromFields root (bs1 ++ bs2) = fromFields root bs1 ++ fromFields root bs2) ∧
    fromFields cfgTwoBuckets ["B1", "B2"] =
      [⟨itemA, "B1"⟩, ⟨itemB, "B1"⟩, ⟨itemC, "B2"⟩] := by
  refine ⟨fun root b items h => ?_, fun root bs1 bs2 => ?_, rfl⟩
  · cases items with
    | nil => simp [fromFields, h, isSetV]
    | cons x xs => simp [fromFields, h, isSetV]
  · simp [fromFields, List.flatMap_append]

/-- Witness: the single-bucket equation of C1 applied to the concrete
two-bucket configuration. -/
theorem fromFields_bucket_then_item_order_witness :
    fromFields cfgTwoBuckets ["B1"] = [⟨itemA, "B1"⟩, ⟨itemB, "B1"⟩] :=
  fromFields_bucket_then_item_order.1 cfgTwoBuckets "B1" [.obj itemA, .obj itemB] rfl

/-- C2: Dedupe by a key field is a stable, order-preserving, first-wins
filter: the output is a sublist of the input, and for every key value the
surviving objects with that key value are exactly the first such object of
the input; on the records x1, y2, x3 keyed by name it yields x1, y2. -/
theorem dedupe_stable_first_wins :
    (∀ (key : String) (l : List Obj), (dedupeBy key l).Sublist l) ∧
    (∀ (key : String) (v : Value) (l : List Obj),
        (dedupeBy key l).filter (keyMatches key v) =
          (l.filter (keyMatches key v)).take 1) ∧
    dedupeBy "name" [objX1, objY2, objX3] = [objX1, objY2] :=
  ⟨fun key l => dedupeGo_sublist key [] l,
   fun key v l => dedupeGo_filter_of_not_mem key v l [] (List.not_mem_nil v),
   rfl⟩

/-- Every key emitted by a field map application is a declared output field
name of the field map. -/
theorem evalMap_keys (r : Record) (fm : FieldMap) (k : String) (v : Value)
    (h : (k, v) ∈ evalMap r fm) : k ∈ fm.map Prod.fst := by
  induction fm with
  | nil => simp [evalMap] at h
  | cons p rest ih =>
    obtain ⟨f, rule⟩ := p
    rw [evalMap] at h
    simp only [List.map_cons, List.mem_cons]
    cases he : evalRule r rule with
    | some w =>
      simp only [he] at h
      rcases List.mem_cons.mp h with h1 | h2
      · exact Or.inl (congrArg Prod.fst h1)
      · exact Or.inr (ih h2)
    | none =>
      simp only [he] at h
      exact Or.inr (ih h)

/-- A set value is a present value. -/
theorem isSetV_true_isSome (o : Option Value) (h : isSetV o = true) :
    ∃ v, o = some v := by
  cases o with
  | none => simp [isSetV] at h
  | some v => exact ⟨v, rfl⟩

/-- C3: the FieldMap applied to a record by MapBySource is exactly the one
indexed by the record's sourceBucket tag: pvc-tagged records produce
persistentVolumeClaim-shaped nested objects (and only name or
persistentVolumeClaim keys), configMap-tagged records produce
configMap-shaped nested objects (and only name or configMap keys), with no
cross-application. -/
theorem mapBySource_dispatch_correct :
    (∀ r : Record, r.sourceBucket = "pvc" →
        ∀ (n c : Value),
          lookupField r.fields "name" = some n →
          lookupField r.fields "claimName" = some c →
          dispatchRecord podVolumeMappings r =
            [("name", n), ("persistentVolumeClaim", .obj [("claimName", c)])]) ∧
    (∀ r : Record, r.sourceBucket = "pvc" →
        ∀ (k : String) (v : Value), (k, v) ∈ dispatchRecord podVolumeMappings r →
          k = "name" ∨ k = "persistentVolumeClaim") ∧
    (∀ r : Record, r.sourceBucket = "configMap" →
        ∀ (n cm dm : Value),
          lookupField r.fields "name" = some n →
          lookupField r.fields "cmName" = some cm →
          lookupField r.fields "defaultMode" = some dm →
          lookupField r.fields "items" = none →
          dispatchRecord podVolumeMappings r =
            [("name", n), ("configMap", .obj [("name", cm), ("defaultMode", dm)])]) ∧
    (∀ r : Record, r.sourceBucket = "configMap" →
        ∀ (k : String) (v : Value), (k, v) ∈ dispatchRecord podVolumeMappings r →
          k = "name" ∨ k = "configMap") := by
  refine ⟨fun r hb n c hn hc => ?_, fun r hb k v hmem => ?_,
          fun r hb n cm dm hn hcm hdm hit => ?_, fun r hb k v hmem => ?_⟩
  · simp [dispatchRecord, hb, lookupFieldMap, podVolumeMappings, evalMap, evalRule, hn, hc]
  · have hd : dispatchRecord podVolumeMappings r =
        evalMap r
          [("name", .ref "name"),
           ("persistentVolumeClaim", .nested [("claimName", .ref "claimName")])] := by
      simp [dispatchRecord, hb, lookupFieldMap, podVolumeMappings]
    rw [hd] at hmem
    have hk := evalMap_keys r _ k v hmem
    simpa using hk
  · simp [dispatchRecord, hb, lookupFieldMap, podVolumeMappings, evalMap, evalRule,
         hn, hcm, hdm, hit]
  · have hd : dispatchRecord podVolumeMappings r =
        evalMap r
          [("name", .ref "name"),
           ("configMap",
            .nested
              [("name", .ref "cmName"),
               ("defaultMode", .ref "defaultMode"),
               ("items", .optional "items")])] := by
      simp [dispatchRecord, hb, lookupFieldMap, podVolumeMappings]
    rw [hd] at hmem
    have hk := evalMap_keys r _ k v hmem
    simpa using hk

/-- Witness: C3 applied to a concrete pvc record and a concrete configMap
record. -/
theorem mapBySource_dispatch_correct_witness :
    dispatchRecord podVolumeMappings
        ⟨[("name", .str "vol"), ("claimName", .str "cl")], "pvc"⟩ =
      [("name", .str "vol"), ("persistentVolumeClaim", .obj [("claimName", .str "cl")])] ∧
    dispatchRecord podVolumeMappings
        ⟨[("name", .str "vol"), ("cmName", .str "cm"), ("defaultMode", .num 420)],
         "configMap"⟩ =
      [("name", .str "vol"),
       ("configMap", .obj [("name", .str "cm"), ("defaultMode", .num 420)])] :=
  ⟨mapBySource_dispatch_correct.1
      ⟨[("name", .str "vol"), ("claimName", .str "cl")], "pvc"⟩ rfl
      (.str "vol") (.str "cl") rfl rfl,
   mapBySource_dispatch_correct.2.2.1
      ⟨[("name", .str "vol"), ("cmName", .str "cm"), ("defaultMode", .num 420)],
       "configMap"⟩ rfl
      (.str "vol") (.str "cm") (.num 420) rfl rfl rfl rfl⟩

/-- C4: the fallback chain Or(Ref(port), Ref(containerPort)) resolves to the
record's port value whenever port is present, and to the containerPort value
when port is absent; a Ref to a missing path resolves to absence, which
propagates through Or, never an error. -/
theorem or_fallback_chain :
    (∀ (r : Record) (v : Value),
        lookupField r.fields "port" = some v →
        evalRule r portFallbackRule = some v) ∧
    (∀ r : Record,
        lookupField r.fields "port" = none →
        evalRule r portFallbackRule = lookupField r.fields "containerPort") ∧
    (∀ (r : Record) (p : String),
        lookupField r.fields p = none → evalRule r (.ref p) = none) := by
  refine ⟨fun r v h => ?_, fun r h => ?_, fun r p h => h⟩
  · simp [evalRule, portFallbackRule, h]
  · simp [evalRule, portFallbackRule, h]

/-- Witness: C4 applied to a record with port absent and containerPort 8080,
and to a record with port 80 and containerPort 9090. -/
theorem or_fallback_chain_witness :
    evalRule ⟨[("containerPort", .num 8080)], ""⟩ portFallbackRule = some (.num 8080) ∧
    evalRule ⟨[("port", .num 80), ("containerPort", .num 9090)], ""⟩ portFallbackRule =
      some (.num 80) :=
  ⟨or_fallback_chain.2.1 ⟨[("containerPort", .num 8080)], ""⟩ rfl,
   or_fallback_chain.1 ⟨[("port", .num 80), ("containerPort", .num 9090)], ""⟩
     (.num 80) rfl⟩

/-- C5: a PickIf field appears in the uniform output exactly when its
condition holds of the current record; in the container-mounts stage a
record lacking subPath produces an output object with no subPath key at
all, not a null or empty placeholder. -/
theorem pickIf_conditional_omission :
    (∀ (r : Record) (f : String),
        f ∈ (applyPicks [.pickIf (.itemFieldIsSet f) f] r).map Prod.fst ↔
          evalCond r (.itemFieldIsSet f) = true) ∧
    (∀ r : Record,
        "subPath" ∈ (applyPicks containerMountsPicks r).map Prod.fst ↔
          isSetV (lookupField r.fields "subPath") = true) ∧
    (∀ r : Record, lookupField r.fields "subPath" = none →
        applyPicks containerMountsPicks r =
          applyPicks [.pick "name", .pick "mountPath"] r) := by
  refine ⟨fun r f => ?_, fun r => ?_, fun r h => ?_⟩
  · by_cases hs : isSetV (lookupField r.fields f) = true
    · obtain ⟨v, hv⟩ := isSetV_true_isSome _ hs
      simp [applyPicks, evalCond, hs, hv]
    · simp [applyPicks, evalCond, hs]
  · by_cases hs : isSetV (lookupField r.fields "subPath") = true
    · obtain ⟨v, hv⟩ := isSetV_true_isSome _ hs
      cases hn : lookupField r.fields "name" <;>
        cases hm : lookupField r.fields "mountPath" <;>
          simp [applyPicks, containerMountsPicks, evalCond, hs, hv, hn, hm]
    · cases hn : lookupField r.fields "name" <;>
        cases hm : lookupField r.fields "mountPath" <;>
          simp [applyPicks, containerMountsPicks, evalCond, hs, hn, hm]
  · have hs : isSetV (lookupField r.fields "subPath") = false := by
      rw [h]; rfl
    cases hn : lookupField r.fields "name" <;>
      cases hm : lookupField r.fields "mountPath" <;>
        simp [applyPicks, containerMountsPicks, evalCond, hs, hn, hm]

/-- Witness: C5 applied to a concrete record lacking subPath: the output has
only the name and mountPath keys. -/
theorem pickIf_conditional_omission_witness :
    applyPicks containerMountsPicks
        ⟨[("name", .str "m"), ("mountPath", .str "/x")], "pvc"⟩ =
      applyPicks [.pick "name", .pick "mountPath"]
        ⟨[("name", .str "m"), ("mountPath", .str "/x")], "pvc"⟩ :=
  pickIf_conditional_omission.2.2
    ⟨[("name", .str "m"), ("mountPath", .str "/x")], "pvc"⟩ rfl

/-- C6: building a MapBySource pipeline succeeds exactly when the supplied
table has an entry for every bucket name of the upstream extractor; the
complete pod-volume table builds, a table missing the hostPath bucket is
rejected when the helper is built. -/
theorem mapBySource_missing_entry_build_error :
    (∀ (buckets : List String) (table : List (String × FieldMap)) (dk : Option String),
        buildOk (.fromFieldsSrc buckets (.mapBySource table) dk) = true ↔
          ∀ b ∈ buckets, (lookupFieldMap table b).isSome = true) ∧
    buildOk PodVolumesHelper = true ∧
    buildOk (.fromFieldsSrc volumeMountSources
        (.mapBySource (podVolumeMappings.take 4)) none) = false := by
  refine ⟨fun buckets table dk => ?_, rfl, rfl⟩
  simp [buildOk, List.all_eq_true]

/-- Witness: C6 applied to a concrete bucket list covered by the pod-volume
table. -/
theorem mapBySource_missing_entry_build_error_witness :
    buildOk (.fromFieldsSrc ["pvc", "configMap"] (.mapBySource podVolumeMappings) none) =
      true :=
  (mapBySource_missing_entry_build_error.1 ["pvc", "configMap"] podVolumeMappings
      none).mpr (by decide)

/-- C7: render-time evaluation of a built pipeline is a pure function of the
configuration snapshot: evaluating the same pipeline twice against the same
snapshot yields identical output sequences. -/
theorem helper_eval_idempotent (root : Value) (p : Pipeline) :
    evalPipeline root p = evalPipeline root p := rfl

/-- C8: Format(port-%v, Ref(port)) resolves to the interpolation of the
record's port value, and in the container-ports map a record with name
absent and port 80 yields the output field name set to port-80. -/
theorem format_port_derivation :
    (∀ (r : Record) (v : Value),
        lookupField r.fields "port" = some v →
        evalRule r (.format "port-%v" [.ref "port"]) =
          some (.str ("port-" ++ renderValue v))) ∧
    (∀ (r : Record) (pr : Value),
        lookupField r.fields "name" = none →
        lookupField r.fields "port" = some (.num 80) →
        lookupField r.fields "protocol" = some pr →
        evalMap r containerPortsMap =
          [("containerPort", .num 80), ("name", .str "port-80"), ("protocol", pr)]) := by
  constructor
  · intro r v h
    have ha : evalArgs r [.ref "port"] = some [renderValue v] := by
      simp [evalArgs, evalRule, h]
    simp only [evalRule, ha]
    rfl
  · intro r pr hn hp hpr
    have ha : evalArgs r [.ref "port"] = some ["80"] := by
      simp only [evalArgs, evalRule, hp]
      rfl
    simp only [containerPortsMap, evalMap, evalRule, hn, hp, hpr, ha]
    rfl

/-- Witness: C8 applied to a concrete port record with name absent. -/
theorem format_port_derivation_witness :
    evalMap ⟨[("port", .num 80), ("protocol", .str "TCP")], ""⟩ containerPortsMap =
      [("containerPort", .num 80), ("name", .str "port-80"), ("protocol", .str "TCP")] :=
  format_port_derivation.2 ⟨[("port", .num 80), ("protocol", .str "TCP")], ""⟩
    (.str "TCP") rfl rfl rfl

/-- C9: the containerPort field emitted by the container-ports map equals
the record's port value unconditionally — the rule is a bare Ref(port), so
the record's own containerPort field is never consulted — while the
service-ports fallback rule does fall back to containerPort when port is
absent. -/
theorem containerPort_ignores_record_containerPort :
    (∀ (r : Record) (v : Value),
        lookupField r.fields "port" = some v →
        lookupField (evalMap r containerPortsMap) "containerPort" = some v) ∧
    (∀ r : Record, evalRule r (.ref "port") = lookupField r.fields "port") ∧
    (∀ (r : Record) (w : Value),
        lookupField r.fields "port" = none →
        lookupField r.fields "containerPort" = some w →
        evalRule r portFallbackRule = some w) := by
  refine ⟨fun r v h => ?_, fun r => rfl, fun r w h hw => ?_⟩
  · simp [evalMap, containerPortsMap, evalRule, h, lookupField]
  · simp [evalRule, portFallbackRule, h, hw]

/-- Witness: C9 applied to a record whose containerPort field 9090 differs
from its port field 80: the emitted containerPort is 80. -/
theorem containerPort_ignores_record_containerPort_witness :
    lookupField
        (evalMap ⟨[("port", .num 80), ("containerPort", .num 9090)], ""⟩
          containerPortsMap)
        "containerPort" = some (.num 80) :=
  containerPort_ignores_record_containerPort.1
    ⟨[("port", .num 80), ("containerPort", .num 9090)], ""⟩ (.num 80) rfl

/-- A round trip from objects to untagged records and back is the identity. -/
theorem map_mk_fields (l : List Obj) :
    List.map Record.fields (List.map (fun fs => (⟨fs, ""⟩ : Record)) l) = l := by
  induction l with
  | nil => rfl
  | cons a as ih => simpa using ih

/-- C10: each deduped helper evaluates to the stable first-wins dedupe by
name of its non-deduped sibling's output: its first stage is the identical
extraction-and-mapping pipeline, followed only by Dedupe(name). -/
theorem deduped_helpers_refine_siblings :
    (∀ root : Value,
        evalPipeline root PodVolumesDedupedHelper =
          dedupeBy "name" (evalPipeline root PodVolumesHelper)) ∧
    (∀ root : Value,
        evalPipeline root ContainerMountsDedupedHelper =
          dedupeBy "name" (evalPipeline root ContainerMountsHelper)) := by
  constructor <;>
    · intro root
      simp only [PodVolumesDedupedHelper, PodVolumesHelper, ContainerMountsDedupedHelper,
                 ContainerMountsHelper, containerMountsStage, evalPipeline, applyStage,
                 applyDedupe]
      rw [map_mk_fields]

end Defkit
